import Mathlib

/-!
Shallow embedding of the xv6-riscv buffer cache (`kernel/bio.c`) and proofs
about its claims.

The embedding models each public operation of the cache (`binit`, `bget`,
`bread`, `bwrite`, `brelse`, `bpin`, `bunpin`, `set_cache_size`) as an atomic
transition on an explicit cache state.  The doubly linked recency list headed
by `bcache.head` is represented as a Lean list of buffer indices in
most-recently-used-first order (`head.next` is the list head, `head.prev` the
last element); the eviction scan of `bget`, which walks `head.prev` backwards,
is a `find?` over the reversed list.  The sleeplock of a buffer is a boolean
(held / free); acquiring a held sleeplock is reported as the `blocked`
outcome, with all mutations made before the acquire kept in the state, as in
the C code.  `panic` never returns in C, so a panicking operation leaves the
state unchanged from the point of the panic.  Device I/O is external: reads
take a `disk` function, writes are reported by a boolean flag.
-/

/-- Buffer metadata.  Modelled from the spec: `struct buf` (`buf.h` is not in
the sources; only `bio.c` is).  Per the spec's data model a Buffer carries a
device id, a block number, a validity flag, a reference count (`ref_count`,
a count of outstanding holders, modelled as `Nat`), a per-buffer content lock
(the sleeplock, modelled as a held/free boolean for the single observing
caller), and a fixed-size payload (abstracted to a `Nat`).  The recency
linkage (`prev`/`next`) lives in `BCache.lru`. -/
structure Buf where
  dev : Nat
  blockno : Nat
  valid : Bool
  refcnt : Nat
  lockHeld : Bool
  payload : Nat
  deriving DecidableEq

/-- The zero-initialized buffer: `bcache` is a C global, so every field starts
at zero before `binit` runs. -/
def zeroBuf : Buf :=
  { dev := 0, blockno := 0, valid := false, refcnt := 0, lockHeld := false, payload := 0 }

/-- Modelled from the spec: `hashmap_get` (`hashmap.h` is not in the sources).
The Buffer Index is "an associative structure mapping (device id, block
number) → buffer slot"; lookup returns the slot mapped to the key, if any. -/
def hashmap_get (m : List ((Nat × Nat) × Nat)) (dev blockno : Nat) : Option Nat :=
  match m.find? (fun e => e.1 == (dev, blockno)) with
  | some e => some e.2
  | none => none

/-- Modelled from the spec: `hashmap_put` (`hashmap.h` is not in the sources).
Inserts or updates the mapping for the key, leaving all other keys
unchanged. -/
def hashmap_put (m : List ((Nat × Nat) × Nat)) (dev blockno v : Nat) :
    List ((Nat × Nat) × Nat) :=
  ((dev, blockno), v) :: m.filter (fun e => e.1 != (dev, blockno))

/-- The cache state: the fixed pool `bcache.buf`, the recency list (indices
into the pool, most recently used first), the Buffer Index `bcache.cache_map`,
and the recorded `bcache.cache_size` field. -/
structure BCache where
  bufs : List Buf
  lru : List Nat
  cacheMap : List ((Nat × Nat) × Nat)
  cacheSize : Int
  deriving DecidableEq

/-- Dereference a buffer index (a `struct buf *` into the pool). -/
def getBuf (s : BCache) (i : Nat) : Buf :=
  s.bufs.getD i zeroBuf

/-- Mutate one buffer of the pool in place. -/
def updateBuf (s : BCache) (i : Nat) (f : Buf → Buf) : BCache :=
  { s with bufs := s.bufs.set i (f (getBuf s i)) }

/-- One step of the `binit` loop body: link the buffer at the head of the
recency list (`b->next = bcache.head.next; ...; bcache.head.next = b`) and
`hashmap_put(bcache.cache_map, b->dev, b->blockno, b)`. -/
def binitStep (s : BCache) (b : Nat) : BCache :=
  { s with
    lru := b :: s.lru,
    cacheMap := hashmap_put s.cacheMap (getBuf s b).dev (getBuf s b).blockno b }

/-- `binit` for a pool of `n` buffers: starting from the zero-initialized
global, build the recency list and run the loop over every buffer.
`bcache.cache_size = DEFAULT_NBUF = 128`. -/
def binit (n : Nat) : BCache :=
  (List.range n).foldl binitStep
    { bufs := List.replicate n zeroBuf, lru := [], cacheMap := [], cacheSize := 128 }

/-- Result of an operation: normal return, kernel panic (with the panic
message), or blocked forever on a sleeplock already held by the caller. -/
inductive Outcome (α : Type) where
  | ok : α → Outcome α
  | panic : String → Outcome α
  | blocked : Outcome α
  deriving DecidableEq

/-- `bget(dev, blockno)`: look the key up in the hash map; on a hit increment
the mapped buffer's `refcnt` and acquire its sleeplock.  On a miss scan the
recency list from `bcache.head.prev` backwards (least recently used first)
for a buffer with `refcnt == 0`, take it over for the new key
(`valid = 0`, `refcnt = 1`), `hashmap_put` the new key, and acquire the
sleeplock.  If no buffer is free: `panic("bget: no buffers")`. -/
def bget (s : BCache) (dev blockno : Nat) : BCache × Outcome Nat :=
  match hashmap_get s.cacheMap dev blockno with
  | some b =>
    let s1 := updateBuf s b (fun bf => { bf with refcnt := bf.refcnt + 1 })
    if (getBuf s1 b).lockHeld then (s1, Outcome.blocked)
    else (updateBuf s1 b (fun bf => { bf with lockHeld := true }), Outcome.ok b)
  | none =>
    match s.lru.reverse.find? (fun i => (getBuf s i).refcnt == 0) with
    | some b =>
      let s1 := updateBuf s b (fun bf =>
        { bf with dev := dev, blockno := blockno, valid := false, refcnt := 1 })
      let s2 := { s1 with cacheMap := hashmap_put s1.cacheMap dev blockno b }
      if (getBuf s2 b).lockHeld then (s2, Outcome.blocked)
      else (updateBuf s2 b (fun bf => { bf with lockHeld := true }), Outcome.ok b)
    | none => (s, Outcome.panic "bget: no buffers")

/-- `bread(dev, blockno)`: `bget`, then if the buffer is not valid read it
from the device (`virtio_disk_rw(b, 0)`) and set `valid = 1`.  The returned
flag records whether the device read was performed. -/
def bread (s : BCache) (dev blockno : Nat) (disk : Nat → Nat → Nat) :
    BCache × Outcome (Nat × Bool) :=
  match bget s dev blockno with
  | (s1, Outcome.ok b) =>
    if (getBuf s1 b).valid then (s1, Outcome.ok (b, false))
    else
      (updateBuf s1 b (fun bf => { bf with payload := disk bf.dev bf.blockno, valid := true }),
        Outcome.ok (b, true))
  | (s1, Outcome.panic m) => (s1, Outcome.panic m)
  | (s1, Outcome.blocked) => (s1, Outcome.blocked)

/-- `bwrite(b)`: `panic("bwrite")` unless the caller holds the sleeplock,
otherwise write the buffer to the device (`virtio_disk_rw(b, 1)`).  The
returned flag records that the device write was performed. -/
def bwrite (s : BCache) (b : Nat) : BCache × Outcome Bool :=
  if (getBuf s b).lockHeld = false then (s, Outcome.panic "bwrite")
  else (s, Outcome.ok true)

/-- `brelse(b)`: `panic("brelse")` unless the caller holds the sleeplock;
otherwise release it, decrement `refcnt`, and if it reached zero move the
buffer to the head of the recency list (the most-recently-used end). -/
def brelse (s : BCache) (b : Nat) : BCache × Outcome Unit :=
  if (getBuf s b).lockHeld = false then (s, Outcome.panic "brelse")
  else
    let s1 := updateBuf s b (fun bf => { bf with lockHeld := false, refcnt := bf.refcnt - 1 })
    if (getBuf s1 b).refcnt = 0 then
      ({ s1 with lru := b :: s1.lru.erase b }, Outcome.ok ())
    else (s1, Outcome.ok ())

/-- `bpin(b)`: increment `refcnt` under the cache lock. -/
def bpin (s : BCache) (b : Nat) : BCache × Outcome Unit :=
  (updateBuf s b (fun bf => { bf with refcnt := bf.refcnt + 1 }), Outcome.ok ())

/-- `bunpin(b)`: `panic("bunpin: refcnt already zero")` when `refcnt` is
already zero, otherwise decrement it. -/
def bunpin (s : BCache) (b : Nat) : BCache × Outcome Unit :=
  if (getBuf s b).refcnt = 0 then (s, Outcome.panic "bunpin: refcnt already zero")
  else (updateBuf s b (fun bf => { bf with refcnt := bf.refcnt - 1 }), Outcome.ok ())

/-- `set_cache_size(size)`: record the new size in `bcache.cache_size`. -/
def set_cache_size (s : BCache) (size : Int) : BCache :=
  { s with cacheSize := size }

/-- One API call of the cache, as named by the claims. -/
inductive Op where
  | get (dev blockno : Nat)
  | read (dev blockno : Nat)
  | rel (b : Nat)
  | pin (b : Nat)
  | unpin (b : Nat)

/-- The state after running one operation (whatever its outcome: a panic or a
block keeps the mutations made before it, as in the C code). -/
def applyOp (disk : Nat → Nat → Nat) (s : BCache) : Op → BCache
  | Op.get d bn => (bget s d bn).1
  | Op.read d bn => (bread s d bn disk).1
  | Op.rel b => (brelse s b).1
  | Op.pin b => (bpin s b).1
  | Op.unpin b => (bunpin s b).1

/-- Protocol side condition used by the amended C3 claim: `bpin` is only
invoked on a buffer that currently has a holder (`refcnt > 0`); every other
operation is unrestricted. -/
def okOp (s : BCache) : Op → Prop
  | Op.pin b => 0 < (getBuf s b).refcnt
  | _ => True

/-- States reachable from `binit` by any sequence of operations. -/
inductive Reach (n : Nat) (disk : Nat → Nat → Nat) : BCache → Prop where
  | init : Reach n disk (binit n)
  | step (s : BCache) (op : Op) : Reach n disk s → Reach n disk (applyOp disk s op)

/-- States reachable from `binit` by sequences of operations respecting the
`okOp` side condition on `bpin`. -/
inductive ReachOk (n : Nat) (disk : Nat → Nat → Nat) : BCache → Prop where
  | init : ReachOk n disk (binit n)
  | step (s : BCache) (op : Op) : ReachOk n disk s → okOp s op → ReachOk n disk (applyOp disk s op)

/-- At most one buffer of the pool holds a given (device, block number) pair
with a positive reference count. -/
def AtMostOneLive (s : BCache) : Prop :=
  ∀ i < s.bufs.length, ∀ j < s.bufs.length,
    ¬(i ≠ j ∧ 0 < (getBuf s i).refcnt ∧ 0 < (getBuf s j).refcnt
      ∧ (getBuf s i).dev = (getBuf s j).dev ∧ (getBuf s i).blockno = (getBuf s j).blockno)

instance decAtMostOneLive (s : BCache) : Decidable (AtMostOneLive s) :=
  inferInstanceAs (Decidable (∀ i < s.bufs.length, ∀ j < s.bufs.length,
    ¬(i ≠ j ∧ 0 < (getBuf s i).refcnt ∧ 0 < (getBuf s j).refcnt
      ∧ (getBuf s i).dev = (getBuf s j).dev ∧ (getBuf s i).blockno = (getBuf s j).blockno)))

/-- Trivial disk contents used for concrete executions. -/
def dzero : Nat → Nat → Nat := fun _ _ => 0

/-- Concrete execution trace exhibiting the stale-mapping bug, on a pool of 2
buffers: `bget(1,5)` recycles buffer 0; after `brelse`, `bget(2,6)` recycles
buffer 1, whose old key (0,0) is still mapped to it by the Buffer Index (the
`binit` loop put every buffer there under its zero-initialized key); the
stale mapping is never removed. -/
def t1 : BCache := (bget (binit 2) 1 5).1

/-- The trace state after `brelse` of buffer 0. -/
def t2 : BCache := (brelse t1 0).1

/-- The trace state after `bget(2,6)`, which recycles buffer 1. -/
def t3 : BCache := (bget t2 2 6).1

/-- The trace state after `brelse` of buffer 1. -/
def t4 : BCache := (brelse t3 1).1

/-- A fully referenced 2-buffer pool used to witness C6. -/
def sFull : BCache :=
  { bufs := [{ zeroBuf with refcnt := 1 }, { zeroBuf with refcnt := 1 }],
    lru := [0, 1], cacheMap := [], cacheSize := 128 }

/-- A state with the sleeplock of buffer 0 held, witnessing C9. -/
def sHeld : BCache :=
  { bufs := [{ zeroBuf with lockHeld := true, refcnt := 1 }, zeroBuf],
    lru := [1, 0], cacheMap := [((0, 0), 0)], cacheSize := 128 }

/-- A 2-buffer state with both buffers free, for the C5 witness: the LRU scan
must pick buffer 1 (the LRU end of `lru = [0, 1]`), not buffer 0. -/
def sC5 : BCache :=
  { bufs := [zeroBuf, zeroBuf], lru := [0, 1], cacheMap := [], cacheSize := 128 }

/-- The state after `binit` of 2 buffers followed by `bpin` of buffer 0 and
`bpin` of buffer 1: both buffers then carry the zero-initialized key (0,0)
with `refcnt = 1`. -/
def sBad : BCache := applyOp dzero (applyOp dzero (binit 2) (Op.pin 0)) (Op.pin 1)

/-- The inductive invariant behind the at-most-one-live-buffer-per-key
property: every entry of the Buffer Index also appears under the current key
of the buffer it maps (`mapSelf`), and every buffer with a positive reference
count is mapped by the Buffer Index under its own current key (`liveMapped`).
Since the index is a function of the key, two distinct live buffers can never
share a key. -/
structure CacheInv (s : BCache) : Prop where
  lruWF : ∀ i ∈ s.lru, i < s.bufs.length
  mapWF : ∀ kd kb v : Nat, hashmap_get s.cacheMap kd kb = some v → v < s.bufs.length
  mapSelf : ∀ kd kb v : Nat, hashmap_get s.cacheMap kd kb = some v →
    hashmap_get s.cacheMap (getBuf s v).dev (getBuf s v).blockno = some v
  liveMapped : ∀ i : Nat, i < s.bufs.length → 0 < (getBuf s i).refcnt →
    hashmap_get s.cacheMap (getBuf s i).dev (getBuf s i).blockno = some i

/-! ### Basic list lemmas for the embedding -/

theorem getD_set_self {α : Type} :
    ∀ (l : List α) (i : Nat) (v d : α), i < l.length → (l.set i v).getD i d = v := by
  intro l
  induction l with
  | nil => intro i v d h; simp at h
  | cons a t ih =>
    intro i v d h
    cases i with
    | zero => rfl
    | succ i =>
      have : i < t.length := by simpa using h
      exact ih i v d this

theorem getD_set_ne {α : Type} :
    ∀ (l : List α) (i j : Nat) (v d : α), i ≠ j → (l.set i v).getD j d = l.getD j d := by
  intro l
  induction l with
  | nil => intro i j v d _; rfl
  | cons a t ih =>
    intro i j v d hij
    cases i with
    | zero =>
      cases j with
      | zero => exact absurd rfl hij
      | succ j => rfl
    | succ i =>
      cases j with
      | zero => rfl
      | succ j =>
        have : i ≠ j := fun h => hij (by rw [h])
        exact ih i j v d this

theorem getD_ge {α : Type} :
    ∀ (l : List α) (i : Nat) (d : α), l.length ≤ i → l.getD i d = d := by
  intro l
  induction l with
  | nil => intro i d _; rfl
  | cons a t ih =>
    intro i d h
    cases i with
    | zero => simp at h
    | succ i => simpa [List.getD_cons_succ] using ih i d (by simpa using h)

theorem getD_replicate {α : Type} :
    ∀ (n i : Nat) (d : α), (List.replicate n d).getD i d = d := by
  intro n
  induction n with
  | zero => intro i d; rfl
  | succ n ih =>
    intro i d
    cases i with
    | zero => rfl
    | succ i => exact ih i d

theorem find?_split {α : Type} (p : α → Bool) :
    ∀ (l : List α) (c : α), l.find? p = some c →
      ∃ l₁ l₂, l = l₁ ++ c :: l₂ ∧ ∀ x ∈ l₁, p x = false := by
  intro l
  induction l with
  | nil => intro c h; simp [List.find?] at h
  | cons a t ih =>
    intro c h
    cases hp : p a with
    | true =>
      rw [List.find?_cons_of_pos _ hp] at h
      obtain rfl : a = c := by injection h
      exact ⟨[], t, rfl, by intro x hx; simp at hx⟩
    | false =>
      rw [List.find?_cons_of_neg _ (by simp [hp])] at h
      obtain ⟨l₁, l₂, hl, hall⟩ := ih c h
      refine ⟨a :: l₁, l₂, by rw [hl]; rfl, ?_⟩
      intro x hx
      rcases List.mem_cons.mp hx with rfl | hx
      · exact hp
      · exact hall x hx

theorem find?_filter {α : Type} (p q : α → Bool)
    (hpq : ∀ x, p x = true → q x = true) :
    ∀ l : List α, (l.filter q).find? p = l.find? p := by
  intro l
  induction l with
  | nil => rfl
  | cons a t ih =>
    cases hq : q a with
    | true =>
      rw [List.filter_cons_of_pos hq]
      cases hp : p a with
      | true => rw [List.find?_cons_of_pos _ hp, List.find?_cons_of_pos _ hp]
      | false =>
        rw [List.find?_cons_of_neg _ (by simp [hp]), List.find?_cons_of_neg _ (by simp [hp]), ih]
    | false =>
      have hp : p a = false := by
        cases hpa : p a with
        | true => rw [hpq a hpa] at hq; cases hq
        | false => rfl
      rw [List.filter_cons_of_neg (by simp [hq]), List.find?_cons_of_neg _ (by simp [hp]), ih]

/-! ### Facts about the hash map model -/

theorem hashmap_get_put_self (m : List ((Nat × Nat) × Nat)) (d bn v : Nat) :
    hashmap_get (hashmap_put m d bn v) d bn = some v := by
  unfold hashmap_get hashmap_put
  rw [List.find?_cons_of_pos _ (by simp)]

theorem hashmap_get_put_ne (m : List ((Nat × Nat) × Nat)) (d bn v kd kb : Nat)
    (h : (kd, kb) ≠ (d, bn)) :
    hashmap_get (hashmap_put m d bn v) kd kb = hashmap_get m kd kb := by
  unfold hashmap_get hashmap_put
  rw [List.find?_cons_of_neg _ (by simp only [beq_iff_eq]; exact fun hh => h hh.symm)]
  rw [find?_filter]
  intro x hx
  simp only [beq_iff_eq] at hx
  simp only [bne_iff_ne, ne_eq]
  rw [hx]
  exact h

/-! ### Facts about buffer access and update -/

theorem getBuf_update_self (s : BCache) (b : Nat) (f : Buf → Buf)
    (hb : b < s.bufs.length) : getBuf (updateBuf s b f) b = f (getBuf s b) :=
  getD_set_self s.bufs b (f (getBuf s b)) zeroBuf hb

theorem getBuf_update_ne (s : BCache) (b j : Nat) (f : Buf → Buf)
    (h : b ≠ j) : getBuf (updateBuf s b f) j = getBuf s j :=
  getD_set_ne s.bufs b j (f (getBuf s b)) zeroBuf h

theorem getBuf_update_ge (s : BCache) (b : Nat) (f : Buf → Buf)
    (hb : s.bufs.length ≤ b) : getBuf (updateBuf s b f) b = getBuf s b := by
  unfold getBuf updateBuf
  rw [getD_ge _ _ _ (by simpa using hb), getD_ge _ _ _ hb]

theorem getBuf_ge (s : BCache) (b : Nat) (hb : s.bufs.length ≤ b) :
    getBuf s b = zeroBuf :=
  getD_ge s.bufs b zeroBuf hb

theorem updateBuf_length (s : BCache) (b : Nat) (f : Buf → Buf) :
    (updateBuf s b f).bufs.length = s.bufs.length :=
  List.length_set s.bufs b _

theorem lockHeld_lt (s : BCache) (b : Nat) (h : (getBuf s b).lockHeld = true) :
    b < s.bufs.length := by
  by_contra hge
  rw [getBuf_ge s b (Nat.le_of_not_lt hge)] at h
  cases h

/-! ### Closed form of `binit` -/

theorem binit_loop (n : Nat) :
    ∀ k : Nat,
      (List.range k).foldl binitStep
          { bufs := List.replicate n zeroBuf, lru := [], cacheMap := [], cacheSize := 128 } =
        { bufs := List.replicate n zeroBuf, lru := (List.range k).reverse,
          cacheMap := if k = 0 then [] else [((0, 0), k - 1)], cacheSize := 128 } := by
  intro k
  induction k with
  | zero => rfl
  | succ k ih =>
    rw [List.range_succ, List.foldl_append, ih]
    have hz : getBuf
        { bufs := List.replicate n zeroBuf, lru := (List.range k).reverse,
          cacheMap := if k = 0 then [] else [((0, 0), k - 1)], cacheSize := 128 } k = zeroBuf :=
      getD_replicate n k zeroBuf
    simp only [List.foldl_cons, List.foldl_nil, binitStep, hz]
    cases k with
    | zero => rfl
    | succ k =>
      simp only [List.range_succ, List.reverse_append, List.reverse_cons, List.reverse_nil,
        List.nil_append, List.singleton_append]
      rfl

theorem binit_closed (n : Nat) :
    binit n =
      { bufs := List.replicate n zeroBuf, lru := (List.range n).reverse,
        cacheMap := if n = 0 then [] else [((0, 0), n - 1)], cacheSize := 128 } :=
  binit_loop n n

/-- C1: after the trace, `bget(0, 0)` hits the stale Buffer-Index entry
(0,0) → buffer 1 and returns buffer 1 even though its `dev`/`blockno` fields
are 2 and 6, contradicting the claim that the returned buffer's fields equal
the arguments of the call. -/
theorem claim_C1 :
    (bget t4 0 0).2 = Outcome.ok 1
    ∧ (getBuf (bget t4 0 0).1 1).dev = 2
    ∧ (getBuf (bget t4 0 0).1 1).blockno = 6
    ∧ (getBuf (bget t4 0 0).1 1).refcnt = 1 := by decide

/-- C2: in state `t2`, buffer 1 still carries its zero-initialized key (0,0),
the Buffer Index maps (0,0) to buffer 1, and buffer 1 is free; `bget(2,6)`
recycles buffer 1, but after the call the stale mapping (0,0) → buffer 1 is
still present in the Buffer Index, contradicting the claim that the recycled
buffer's old key's mapping is removed within the same critical section. -/
theorem claim_C2 :
    hashmap_get t2.cacheMap 0 0 = some 1
    ∧ (getBuf t2 1).dev = 0 ∧ (getBuf t2 1).blockno = 0 ∧ (getBuf t2 1).refcnt = 0
    ∧ (bget t2 2 6).2 = Outcome.ok 1
    ∧ hashmap_get t3.cacheMap 0 0 = some 1
    ∧ (getBuf t3 1).dev = 2 ∧ (getBuf t3 1).blockno = 6 := by decide

/-- C4 (counterexample): immediately after `binit` of a 2-buffer pool the
Buffer Index is not empty — the `binit` loop inserted every buffer under its
zero-initialized key, leaving the mapping (0,0) → buffer 1. -/
theorem claim_C4_counterexample :
    hashmap_get (binit 2).cacheMap 0 0 = some 1 ∧ (binit 2).cacheMap ≠ [] := by decide

/-- C4 (amended): immediately after `binit` of a nonempty pool, the Buffer
Index contains exactly the single mapping (0,0) → the last buffer of the pool
(every buffer was inserted under its zero-initialized key (0,0), each
insertion overwriting the previous one), and the Recency List contains every
buffer of the pool exactly once. -/
theorem claim_C4 (n : Nat) (hn : 1 ≤ n) :
    (binit n).cacheMap = [((0, 0), n - 1)]
    ∧ hashmap_get (binit n).cacheMap 0 0 = some (n - 1)
    ∧ (binit n).lru.Nodup
    ∧ (∀ i : Nat, i ∈ (binit n).lru ↔ i < n) := by
  have hne : n ≠ 0 := by omega
  rw [binit_closed]
  refine ⟨by simp [hne], ?_, ?_, ?_⟩
  · simp only [hne, if_false]
    unfold hashmap_get
    rw [List.find?_cons_of_pos _ (by simp)]
  · exact List.nodup_reverse.mpr (List.nodup_range n)
  · intro i
    simp [List.mem_reverse, List.mem_range]

theorem claim_C4_witness :
    1 ≤ 3
    ∧ ((binit 3).cacheMap = [((0, 0), 2)]
       ∧ hashmap_get (binit 3).cacheMap 0 0 = some 2
       ∧ (binit 3).lru.Nodup
       ∧ (∀ i : Nat, i ∈ (binit 3).lru ↔ i < 3)) :=
  ⟨by decide, claim_C4 3 (by decide)⟩

/-- C6: when the lookup misses and every buffer of the pool has a positive
reference count, `bget` panics with "bget: no buffers", leaving the state
unchanged: no retry, no blocking, no reuse of a referenced buffer. -/
theorem claim_C6 (s : BCache) (d bn : Nat)
    (hwf : ∀ i ∈ s.lru, i < s.bufs.length)
    (hmiss : hashmap_get s.cacheMap d bn = none)
    (hall : ∀ i, i < s.bufs.length → 0 < (getBuf s i).refcnt) :
    bget s d bn = (s, Outcome.panic "bget: no buffers") := by
  have hnone : s.lru.reverse.find? (fun i => (getBuf s i).refcnt == 0) = none := by
    rw [List.find?_eq_none]
    intro x hx
    have hxl : x ∈ s.lru := List.mem_reverse.mp hx
    have := hall x (hwf x hxl)
    simp only [beq_iff_eq]
    omega
  simp [bget, hmiss, hnone]

theorem claim_C6_witness :
    (∀ i ∈ sFull.lru, i < sFull.bufs.length)
    ∧ hashmap_get sFull.cacheMap 7 7 = none
    ∧ (∀ i, i < sFull.bufs.length → 0 < (getBuf sFull i).refcnt)
    ∧ bget sFull 7 7 = (sFull, Outcome.panic "bget: no buffers") :=
  ⟨by decide, by decide, by decide, claim_C6 sFull 7 7 (by decide) (by decide) (by decide)⟩

/-- C8: `bwrite` and `brelse` panic exactly when the caller does not hold the
buffer's sleeplock, and in that case change nothing (`bwrite` never changes
the state; `brelse` changes state only on the non-panic path); `bunpin`
panics exactly when `refcnt` is already zero, and otherwise returns
normally. -/
theorem claim_C8 (s : BCache) (b : Nat) :
    ((bwrite s b).2 = Outcome.panic "bwrite" ↔ (getBuf s b).lockHeld = false)
    ∧ (bwrite s b).1 = s
    ∧ ((brelse s b).2 = Outcome.panic "brelse" ↔ (getBuf s b).lockHeld = false)
    ∧ ((brelse s b).1 = s ∨ (brelse s b).2 = Outcome.ok ())
    ∧ ((bunpin s b).2 = Outcome.panic "bunpin: refcnt already zero"
        ↔ (getBuf s b).refcnt = 0)
    ∧ ((bunpin s b).1 = s ∨ (bunpin s b).2 = Outcome.ok ()) := by
  refine ⟨?_, ?_, ?_, ?_, ?_, ?_⟩
  · cases hl : (getBuf s b).lockHeld <;> simp [bwrite, hl]
  · cases hl : (getBuf s b).lockHeld <;> simp [bwrite, hl]
  · cases hl : (getBuf s b).lockHeld
    · simp [brelse, hl]
    · simp only [brelse, hl, Bool.true_eq_false, if_false]
      split <;> simp
  · cases hl : (getBuf s b).lockHeld
    · simp [brelse, hl]
    · simp only [brelse, hl, Bool.true_eq_false, if_false]
      split <;> simp
  · cases hr : (getBuf s b).refcnt <;> simp [bunpin, hr]
  · cases hr : (getBuf s b).refcnt <;> simp [bunpin, hr]

/-- C9: when the caller holds the sleeplock, `bwrite` returns normally having
performed the device write, and the cache state is completely unchanged: no
buffer field, no Recency List link, no Buffer Index entry, and the sleeplock
stays held. -/
theorem claim_C9 (s : BCache) (b : Nat) (h : (getBuf s b).lockHeld = true) :
    bwrite s b = (s, Outcome.ok true) := by
  simp [bwrite, h]

theorem claim_C9_witness :
    (getBuf sHeld 0).lockHeld = true ∧ bwrite sHeld 0 = (sHeld, Outcome.ok true) :=
  ⟨by decide, claim_C9 sHeld 0 (by decide)⟩

/-- C10: `set_cache_size` records its argument in the `cache_size` field and
changes nothing else: the pool, every buffer, the Buffer Index and the
Recency List are untouched. -/
theorem claim_C10 (s : BCache) (size : Int) :
    (set_cache_size s size).bufs = s.bufs
    ∧ (set_cache_size s size).lru = s.lru
    ∧ (set_cache_size s size).cacheMap = s.cacheMap
    ∧ (set_cache_size s size).cacheSize = size
    ∧ (∀ i : Nat, getBuf (set_cache_size s size) i = getBuf s i) :=
  ⟨rfl, rfl, rfl, rfl, fun _ => rfl⟩

/-! ### LRU eviction order (C5) -/

theorem updateBuf_lru (s : BCache) (i : Nat) (f : Buf → Buf) :
    (updateBuf s i f).lru = s.lru := rfl

theorem updateBuf_map (s : BCache) (i : Nat) (f : Buf → Buf) :
    (updateBuf s i f).cacheMap = s.cacheMap := rfl

/-- C5: on a Buffer-Index miss, the buffer `c` chosen by the eviction scan is
free (`refcnt = 0`) and is the least-recently-used eligible buffer: every
buffer behind it in the recency list (closer to the LRU end, i.e. released
less recently than every buffer ahead of it) is referenced, so no
less-recently-released eligible buffer exists and no more-recently-released
buffer is chosen; `bget` takes `c` over for the requested key with
`refcnt = 1`.  Conversely `brelse` of a buffer whose `refcnt` drops to zero
moves it to the most-recently-used end (the head) of the recency list,
making it the last eviction candidate among the currently unused buffers. -/
theorem claim_C5 (s : BCache) (d bn c : Nat)
    (hwf : ∀ i ∈ s.lru, i < s.bufs.length)
    (hmiss : hashmap_get s.cacheMap d bn = none)
    (hfind : s.lru.reverse.find? (fun i => (getBuf s i).refcnt == 0) = some c)
    (hcl : (getBuf s c).lockHeld = false) :
    ((getBuf s c).refcnt = 0
     ∧ (∃ l₁ l₂, s.lru = l₁ ++ c :: l₂ ∧ ∀ j ∈ l₂, (getBuf s j).refcnt ≠ 0)
     ∧ (bget s d bn).2 = Outcome.ok c
     ∧ (getBuf (bget s d bn).1 c).dev = d
     ∧ (getBuf (bget s d bn).1 c).blockno = bn
     ∧ (getBuf (bget s d bn).1 c).refcnt = 1)
    ∧ (∀ t : BCache, ∀ b : Nat, (getBuf t b).lockHeld = true → (getBuf t b).refcnt = 1 →
        (brelse t b).1.lru = b :: t.lru.erase b) := by
  have hc0 : (getBuf s c).refcnt = 0 := by
    have := List.find?_some hfind
    simpa [beq_iff_eq] using this
  have hcmem : c ∈ s.lru := List.mem_reverse.mp (List.mem_of_find?_eq_some hfind)
  have hclen : c < s.bufs.length := hwf c hcmem
  have hlen0 : (updateBuf s c (fun bf =>
      { bf with dev := d, blockno := bn, valid := false, refcnt := 1 })).bufs.length
      = s.bufs.length := updateBuf_length s c _
  have hlen2 : c < ({ updateBuf s c (fun bf =>
      { bf with dev := d, blockno := bn, valid := false, refcnt := 1 }) with
      cacheMap := hashmap_put (updateBuf s c (fun bf =>
        { bf with dev := d, blockno := bn, valid := false, refcnt := 1 })).cacheMap d bn c
      }).bufs.length := by
    show c < (updateBuf s c (fun bf =>
      { bf with dev := d, blockno := bn, valid := false, refcnt := 1 })).bufs.length
    rw [hlen0]
    exact hclen
  have hmid0 : getBuf (updateBuf s c (fun bf =>
      { bf with dev := d, blockno := bn, valid := false, refcnt := 1 })) c
      = { getBuf s c with dev := d, blockno := bn, valid := false, refcnt := 1 } :=
    getBuf_update_self s c _ hclen
  have hmid : getBuf ({ updateBuf s c (fun bf =>
      { bf with dev := d, blockno := bn, valid := false, refcnt := 1 }) with
      cacheMap := hashmap_put (updateBuf s c (fun bf =>
        { bf with dev := d, blockno := bn, valid := false, refcnt := 1 })).cacheMap d bn c
      }) c = { getBuf s c with dev := d, blockno := bn, valid := false, refcnt := 1 } :=
    hmid0
  have hstep : bget s d bn =
      (updateBuf ({ updateBuf s c (fun bf =>
          { bf with dev := d, blockno := bn, valid := false, refcnt := 1 }) with
          cacheMap := hashmap_put (updateBuf s c (fun bf =>
            { bf with dev := d, blockno := bn, valid := false, refcnt := 1 })).cacheMap d bn c
          }) c (fun bf => { bf with lockHeld := true }),
       Outcome.ok c) := by
    simp only [bget, hmiss, hfind, hmid, hcl, Bool.false_eq_true, if_false]
  have hfinal : getBuf (bget s d bn).1 c =
      { getBuf s c with dev := d, blockno := bn, valid := false, refcnt := 1, lockHeld := true } := by
    rw [hstep]
    rw [getBuf_update_self _ c _ hlen2, hmid]
  constructor
  · refine ⟨hc0, ?_, ?_⟩
    · obtain ⟨r₁, r₂, hrev, hr₁⟩ := find?_split _ s.lru.reverse c hfind
      refine ⟨r₂.reverse, r₁.reverse, ?_, ?_⟩
      · have h2 := congrArg List.reverse hrev
        rw [List.reverse_reverse] at h2
        rw [h2]
        simp [List.reverse_append]
      · intro j hj h0
        have hpf := hr₁ j (List.mem_reverse.mp hj)
        simp only [h0] at hpf
        simp at hpf
    · refine ⟨?_, ?_, ?_, ?_⟩
      · rw [hstep]
      · rw [hfinal]
      · rw [hfinal]
      · rw [hfinal]
  · intro t b hl hr1
    have hb : b < t.bufs.length := lockHeld_lt t b hl
    have hcond : (getBuf (updateBuf t b (fun bf =>
        { bf with lockHeld := false, refcnt := bf.refcnt - 1 })) b).refcnt = 0 := by
      rw [getBuf_update_self t b _ hb]
      simp [hr1]
    simp only [brelse, hl, Bool.true_eq_false, if_false, hcond, if_true, updateBuf_lru]

theorem claim_C5_witness :
    (∀ i ∈ sC5.lru, i < sC5.bufs.length)
    ∧ hashmap_get sC5.cacheMap 9 8 = none
    ∧ sC5.lru.reverse.find? (fun i => (getBuf sC5 i).refcnt == 0) = some 1
    ∧ (getBuf sC5 1).lockHeld = false
    ∧ (((getBuf sC5 1).refcnt = 0
        ∧ (∃ l₁ l₂, sC5.lru = l₁ ++ 1 :: l₂ ∧ ∀ j ∈ l₂, (getBuf sC5 j).refcnt ≠ 0)
        ∧ (bget sC5 9 8).2 = Outcome.ok 1
        ∧ (getBuf (bget sC5 9 8).1 1).dev = 9
        ∧ (getBuf (bget sC5 9 8).1 1).blockno = 8
        ∧ (getBuf (bget sC5 9 8).1 1).refcnt = 1)
       ∧ (∀ t : BCache, ∀ b : Nat, (getBuf t b).lockHeld = true → (getBuf t b).refcnt = 1 →
           (brelse t b).1.lru = b :: t.lru.erase b)) :=
  ⟨by decide, by decide, by decide, by decide,
   claim_C5 sC5 9 8 1 (by decide) (by decide) (by decide) (by decide)⟩

/-! ### Read caching (C7) -/

theorem bget_ok_map (s s1 : BCache) (d bn b : Nat)
    (hg : bget s d bn = (s1, Outcome.ok b)) :
    hashmap_get s1.cacheMap d bn = some b := by
  cases hm : hashmap_get s.cacheMap d bn with
  | some b0 =>
    simp only [bget, hm] at hg
    split at hg
    · simp [Prod.ext_iff] at hg
    · injection hg with hs ho
      injection ho with hb0b
      subst hb0b
      rw [← hs]
      simp only [updateBuf_map]
      exact hm
  | none =>
    cases hf : s.lru.reverse.find? (fun i => (getBuf s i).refcnt == 0) with
    | some c =>
      simp only [bget, hm, hf] at hg
      split at hg
      · simp [Prod.ext_iff] at hg
      · injection hg with hs ho
        injection ho with hcb
        subst hcb
        rw [← hs]
        simp only [updateBuf_map]
        exact hashmap_get_put_self _ d bn c
    | none =>
      simp only [bget, hm, hf] at hg
      simp [Prod.ext_iff] at hg

theorem bget_hit_facts (t : BCache) (d bn b : Nat)
    (hm : hashmap_get t.cacheMap d bn = some b)
    (hb : b < t.bufs.length)
    (hl : (getBuf t b).lockHeld = false) :
    (bget t d bn).2 = Outcome.ok b
    ∧ (bget t d bn).1.bufs.length = t.bufs.length
    ∧ (getBuf (bget t d bn).1 b).valid = (getBuf t b).valid := by
  have h1 : getBuf (updateBuf t b (fun bf => { bf with refcnt := bf.refcnt + 1 })) b
      = { getBuf t b with refcnt := (getBuf t b).refcnt + 1 } := getBuf_update_self t b _ hb
  have hlock : (getBuf (updateBuf t b
      (fun bf => { bf with refcnt := bf.refcnt + 1 })) b).lockHeld = false := by
    rw [h1]
    exact hl
  have hb1 : b < (updateBuf t b (fun bf => { bf with refcnt := bf.refcnt + 1 })).bufs.length := by
    rw [updateBuf_length]
    exact hb
  refine ⟨?_, ?_, ?_⟩
  · simp only [bget, hm, hlock, Bool.false_eq_true, if_false]
  · simp only [bget, hm, hlock, Bool.false_eq_true, if_false]
    rw [updateBuf_length, updateBuf_length]
  · simp only [bget, hm, hlock, Bool.false_eq_true, if_false]
    rw [getBuf_update_self _ b _ hb1, h1]

theorem brelse_facts (t : BCache) (b : Nat) (hl : (getBuf t b).lockHeld = true)
    (hbt : b < t.bufs.length) :
    (brelse t b).1.cacheMap = t.cacheMap
    ∧ (brelse t b).1.bufs.length = t.bufs.length
    ∧ getBuf (brelse t b).1 b
        = { getBuf t b with lockHeld := false, refcnt := (getBuf t b).refcnt - 1 } := by
  have hlen : (updateBuf t b (fun bf =>
      { bf with lockHeld := false, refcnt := bf.refcnt - 1 })).bufs.length = t.bufs.length :=
    updateBuf_length t b _
  have hgb : getBuf (updateBuf t b (fun bf =>
      { bf with lockHeld := false, refcnt := bf.refcnt - 1 })) b
      = { getBuf t b with lockHeld := false, refcnt := (getBuf t b).refcnt - 1 } :=
    getBuf_update_self t b _ hbt
  refine ⟨?_, ?_, ?_⟩
  · simp only [brelse, hl, Bool.true_eq_false, if_false]
    split
    · rfl
    · rfl
  · simp only [brelse, hl, Bool.true_eq_false, if_false]
    split
    · exact hlen
    · exact hlen
  · simp only [brelse, hl, Bool.true_eq_false, if_false]
    split
    · exact hgb
    · exact hgb

theorem bread_of_bget_ok (s s1 : BCache) (d bn b : Nat) (disk : Nat → Nat → Nat)
    (hb : b < s1.bufs.length)
    (hg : bget s d bn = (s1, Outcome.ok b)) :
    (bread s d bn disk).2 = Outcome.ok (b, !(getBuf s1 b).valid)
    ∧ (bread s d bn disk).1.cacheMap = s1.cacheMap
    ∧ (bread s d bn disk).1.bufs.length = s1.bufs.length
    ∧ (getBuf (bread s d bn disk).1 b).valid = true
    ∧ (getBuf (bread s d bn disk).1 b).lockHeld = (getBuf s1 b).lockHeld := by
  cases hv : (getBuf s1 b).valid with
  | true =>
    refine ⟨?_, ?_, ?_, ?_, ?_⟩ <;> simp only [bread, hg, hv, if_true, Bool.not_true]
  | false =>
    have hset : getBuf (updateBuf s1 b (fun bf =>
        { bf with payload := disk bf.dev bf.blockno, valid := true })) b
        = { getBuf s1 b with payload := disk (getBuf s1 b).dev (getBuf s1 b).blockno, valid := true } :=
      getBuf_update_self s1 b _ hb
    refine ⟨?_, ?_, ?_, ?_, ?_⟩ <;>
      simp only [bread, hg, hv, Bool.false_eq_true, if_false]
    · rfl
    · rfl
    · exact updateBuf_length s1 b _
    · rw [hset]
    · rw [hset]

/-! ### Preservation of the at-most-one-live-buffer-per-key invariant (C3) -/

theorem inv_update_nonkey (s : BCache) (b : Nat) (f : Buf → Buf)
    (hdev : (f (getBuf s b)).dev = (getBuf s b).dev)
    (hblk : (f (getBuf s b)).blockno = (getBuf s b).blockno)
    (href : 0 < (f (getBuf s b)).refcnt → 0 < (getBuf s b).refcnt
        ∨ hashmap_get s.cacheMap (getBuf s b).dev (getBuf s b).blockno = some b)
    (h : CacheInv s) : CacheInv (updateBuf s b f) := by
  have hfields : ∀ j : Nat, (getBuf (updateBuf s b f) j).dev = (getBuf s j).dev
      ∧ (getBuf (updateBuf s b f) j).blockno = (getBuf s j).blockno := by
    intro j
    by_cases hbj : b = j
    · subst hbj
      by_cases hlt : b < s.bufs.length
      · rw [getBuf_update_self s b f hlt]
        exact ⟨hdev, hblk⟩
      · rw [getBuf_update_ge s b f (Nat.le_of_not_lt hlt)]
        exact ⟨rfl, rfl⟩
    · rw [getBuf_update_ne s b j f hbj]
      exact ⟨rfl, rfl⟩
  have hrefj : ∀ j : Nat, 0 < (getBuf (updateBuf s b f) j).refcnt →
      0 < (getBuf s j).refcnt
      ∨ (j = b ∧ hashmap_get s.cacheMap (getBuf s b).dev (getBuf s b).blockno = some b) := by
    intro j hp
    by_cases hbj : b = j
    · subst hbj
      by_cases hlt : b < s.bufs.length
      · rw [getBuf_update_self s b f hlt] at hp
        rcases href hp with h1 | h1
        · exact Or.inl h1
        · exact Or.inr ⟨rfl, h1⟩
      · rw [getBuf_update_ge s b f (Nat.le_of_not_lt hlt)] at hp
        exact Or.inl hp
    · rw [getBuf_update_ne s b j f hbj] at hp
      exact Or.inl hp
  constructor
  · intro i hi
    rw [updateBuf_length]
    exact h.lruWF i hi
  · intro kd kb v hv
    rw [updateBuf_length]
    exact h.mapWF kd kb v hv
  · intro kd kb v hv
    rw [updateBuf_map, (hfields v).1, (hfields v).2]
    exact h.mapSelf kd kb v hv
  · intro i hi hpos
    rw [updateBuf_length] at hi
    rw [updateBuf_map, (hfields i).1, (hfields i).2]
    rcases hrefj i hpos with hold | ⟨rfl, hmap⟩
    · exact h.liveMapped i hi hold
    · exact hmap

theorem inv_lru_move (s : BCache) (b : Nat) (hb : b < s.bufs.length) (h : CacheInv s) :
    CacheInv { s with lru := b :: s.lru.erase b } := by
  constructor
  · intro i hi
    rcases List.mem_cons.mp hi with rfl | hi2
    · exact hb
    · exact h.lruWF i (List.mem_of_mem_erase hi2)
  · exact h.mapWF
  · exact h.mapSelf
  · exact h.liveMapped

theorem inv_recycle (s : BCache) (c d bn : Nat)
    (hm : hashmap_get s.cacheMap d bn = none)
    (hc : c < s.bufs.length)
    (h : CacheInv s) :
    CacheInv { updateBuf s c (fun bf =>
        { bf with dev := d, blockno := bn, valid := false, refcnt := 1 }) with
      cacheMap := hashmap_put (updateBuf s c (fun bf =>
        { bf with dev := d, blockno := bn, valid := false, refcnt := 1 })).cacheMap d bn c } := by
  have hgc0 : getBuf (updateBuf s c (fun bf =>
      { bf with dev := d, blockno := bn, valid := false, refcnt := 1 })) c
      = { getBuf s c with dev := d, blockno := bn, valid := false, refcnt := 1 } :=
    getBuf_update_self s c _ hc
  have hgc : getBuf { updateBuf s c (fun bf =>
      { bf with dev := d, blockno := bn, valid := false, refcnt := 1 }) with
      cacheMap := hashmap_put (updateBuf s c (fun bf =>
        { bf with dev := d, blockno := bn, valid := false, refcnt := 1 })).cacheMap d bn c } c
      = { getBuf s c with dev := d, blockno := bn, valid := false, refcnt := 1 } := hgc0
  have hgj : ∀ j : Nat, j ≠ c → getBuf { updateBuf s c (fun bf =>
      { bf with dev := d, blockno := bn, valid := false, refcnt := 1 }) with
      cacheMap := hashmap_put (updateBuf s c (fun bf =>
        { bf with dev := d, blockno := bn, valid := false, refcnt := 1 })).cacheMap d bn c } j
      = getBuf s j := by
    intro j hj
    exact getBuf_update_ne s c j (fun bf =>
      { bf with dev := d, blockno := bn, valid := false, refcnt := 1 }) (Ne.symm hj)
  have hTlen : ({ updateBuf s c (fun bf =>
      { bf with dev := d, blockno := bn, valid := false, refcnt := 1 }) with
      cacheMap := hashmap_put (updateBuf s c (fun bf =>
        { bf with dev := d, blockno := bn, valid := false, refcnt := 1 })).cacheMap d bn c
      }).bufs.length = s.bufs.length :=
    updateBuf_length s c (fun bf =>
      { bf with dev := d, blockno := bn, valid := false, refcnt := 1 })
  have hmget : ∀ kd kb : Nat, hashmap_get ({ updateBuf s c (fun bf =>
      { bf with dev := d, blockno := bn, valid := false, refcnt := 1 }) with
      cacheMap := hashmap_put (updateBuf s c (fun bf =>
        { bf with dev := d, blockno := bn, valid := false, refcnt := 1 })).cacheMap d bn c
      }).cacheMap kd kb
      = if (kd, kb) = (d, bn) then some c else hashmap_get s.cacheMap kd kb := by
    intro kd kb
    by_cases hk : (kd, kb) = (d, bn)
    · rw [if_pos hk]
      have h1 : kd = d := congrArg Prod.fst hk
      have h2 : kb = bn := congrArg Prod.snd hk
      subst h1
      subst h2
      exact hashmap_get_put_self _ kd kb c
    · rw [if_neg hk]
      exact hashmap_get_put_ne _ d bn c kd kb hk
  have hdevc : (getBuf { updateBuf s c (fun bf =>
      { bf with dev := d, blockno := bn, valid := false, refcnt := 1 }) with
      cacheMap := hashmap_put (updateBuf s c (fun bf =>
        { bf with dev := d, blockno := bn, valid := false, refcnt := 1 })).cacheMap d bn c } c).dev
      = d := by rw [hgc]
  have hblkc : (getBuf { updateBuf s c (fun bf =>
      { bf with dev := d, blockno := bn, valid := false, refcnt := 1 }) with
      cacheMap := hashmap_put (updateBuf s c (fun bf =>
        { bf with dev := d, blockno := bn, valid := false, refcnt := 1 })).cacheMap d bn c } c).blockno
      = bn := by rw [hgc]
  constructor
  · intro i hi
    rw [hTlen]
    exact h.lruWF i hi
  · intro kd kb v hv
    rw [hmget kd kb] at hv
    rw [hTlen]
    split at hv
    · injection hv with hvc
      rw [← hvc]
      exact hc
    · exact h.mapWF kd kb v hv
  · intro kd kb v hv
    rw [hmget kd kb] at hv
    split at hv
    · injection hv with hvc
      subst hvc
      rw [hdevc, hblkc, hmget, if_pos rfl]
    · by_cases hvc : v = c
      · subst hvc
        rw [hdevc, hblkc, hmget, if_pos rfl]
      · have hms := h.mapSelf kd kb v hv
        have hkne : ((getBuf s v).dev, (getBuf s v).blockno) ≠ (d, bn) := by
          intro he
          have e1 : (getBuf s v).dev = d := congrArg Prod.fst he
          have e2 : (getBuf s v).blockno = bn := congrArg Prod.snd he
          rw [e1, e2] at hms
          rw [hm] at hms
          cases hms
        rw [hgj v hvc, hmget, if_neg hkne]
        exact hms
  · intro i hi hpos
    rw [hTlen] at hi
    by_cases hic : i = c
    · subst hic
      rw [hdevc, hblkc, hmget, if_pos rfl]
    · rw [hgj i hic] at hpos
      have hlm := h.liveMapped i hi hpos
      have hkne : ((getBuf s i).dev, (getBuf s i).blockno) ≠ (d, bn) := by
        intro he
        have e1 : (getBuf s i).dev = d := congrArg Prod.fst he
        have e2 : (getBuf s i).blockno = bn := congrArg Prod.snd he
        rw [e1, e2] at hlm
        rw [hm] at hlm
        cases hlm
      rw [hgj i hic, hmget, if_neg hkne]
      exact hlm

theorem hashmap_get_single (kx ky w kd kb : Nat) :
    hashmap_get [((kx, ky), w)] kd kb
      = if (kx, ky) = (kd, kb) then some w else none := by
  by_cases hk : (kx, ky) = (kd, kb)
  · rw [if_pos hk]
    unfold hashmap_get
    rw [List.find?_cons_of_pos _ (by simp [hk])]
  · rw [if_neg hk]
    unfold hashmap_get
    rw [List.find?_cons_of_neg _ (by simp only [beq_iff_eq]; exact hk)]
    rfl

theorem getBuf_mk (bl : List Buf) (l : List Nat) (m : List ((Nat × Nat) × Nat)) (z : Int)
    (i : Nat) :
    getBuf { bufs := bl, lru := l, cacheMap := m, cacheSize := z } i = bl.getD i zeroBuf := rfl

theorem inv_binit (n : Nat) : CacheInv (binit n) := by
  rw [binit_closed n]
  constructor
  · intro i hi
    simp only [List.mem_reverse, List.mem_range] at hi
    simpa [List.length_replicate] using hi
  · intro kd kb v hv
    cases n with
    | zero => simp [hashmap_get] at hv
    | succ n0 =>
      simp only [Nat.succ_ne_zero, if_false] at hv
      rw [hashmap_get_single] at hv
      split at hv
      · injection hv with hw
        simp [List.length_replicate]
        omega
      · cases hv
  · intro kd kb v hv
    cases n with
    | zero => simp [hashmap_get] at hv
    | succ n0 =>
      simp only [Nat.succ_ne_zero, if_false] at hv ⊢
      rw [hashmap_get_single] at hv
      split at hv
      · injection hv with hw
        subst hw
        rw [getBuf_mk, getD_replicate, hashmap_get_single]
        simp [zeroBuf]
      · cases hv
  · intro i hi hpos
    rw [getBuf_mk, getD_replicate] at hpos
    simp [zeroBuf] at hpos

theorem inv_bget (s : BCache) (d bn : Nat) (h : CacheInv s) : CacheInv (bget s d bn).1 := by
  cases hm : hashmap_get s.cacheMap d bn with
  | some b =>
    have hmapb : hashmap_get s.cacheMap (getBuf s b).dev (getBuf s b).blockno = some b :=
      h.mapSelf d bn b hm
    have h1 : CacheInv (updateBuf s b (fun bf => { bf with refcnt := bf.refcnt + 1 })) :=
      inv_update_nonkey s b _ rfl rfl (fun _ => Or.inr hmapb) h
    have h2 : CacheInv (updateBuf (updateBuf s b (fun bf => { bf with refcnt := bf.refcnt + 1 }))
        b (fun bf => { bf with lockHeld := true })) :=
      inv_update_nonkey _ b _ rfl rfl (fun hp => Or.inl hp) h1
    simp only [bget, hm]
    split
    · exact h1
    · exact h2
  | none =>
    cases hf : s.lru.reverse.find? (fun i => (getBuf s i).refcnt == 0) with
    | some c =>
      have hcmem : c ∈ s.lru := List.mem_reverse.mp (List.mem_of_find?_eq_some hf)
      have hc : c < s.bufs.length := h.lruWF c hcmem
      have h2 : CacheInv { updateBuf s c (fun bf =>
          { bf with dev := d, blockno := bn, valid := false, refcnt := 1 }) with
          cacheMap := hashmap_put (updateBuf s c (fun bf =>
            { bf with dev := d, blockno := bn, valid := false, refcnt := 1 })).cacheMap d bn c } :=
        inv_recycle s c d bn hm hc h
      have h3 : CacheInv (updateBuf { updateBuf s c (fun bf =>
          { bf with dev := d, blockno := bn, valid := false, refcnt := 1 }) with
          cacheMap := hashmap_put (updateBuf s c (fun bf =>
            { bf with dev := d, blockno := bn, valid := false, refcnt := 1 })).cacheMap d bn c }
          c (fun bf => { bf with lockHeld := true })) :=
        inv_update_nonkey _ c _ rfl rfl (fun hp => Or.inl hp) h2
      simp only [bget, hm, hf]
      split
      · exact h2
      · exact h3
    | none =>
      simp only [bget, hm, hf]
      exact h

theorem inv_bread (s : BCache) (d bn : Nat) (disk : Nat → Nat → Nat) (h : CacheInv s) :
    CacheInv (bread s d bn disk).1 := by
  have hg := inv_bget s d bn h
  rcases hres : bget s d bn with ⟨s1, o⟩
  rw [hres] at hg
  cases o with
  | ok b =>
    simp only [bread, hres]
    split
    · exact hg
    · exact inv_update_nonkey s1 b (fun bf =>
        { bf with payload := disk bf.dev bf.blockno, valid := true })
        rfl rfl (fun hp => Or.inl hp) hg
  | panic m =>
    simp only [bread, hres]
    exact hg
  | blocked =>
    simp only [bread, hres]
    exact hg

theorem inv_brelse (s : BCache) (b : Nat) (h : CacheInv s) : CacheInv (brelse s b).1 := by
  cases hl : (getBuf s b).lockHeld with
  | false =>
    have hs : (brelse s b).1 = s := by simp [brelse, hl]
    rw [hs]
    exact h
  | true =>
    have hb : b < s.bufs.length := lockHeld_lt s b hl
    have h1 : CacheInv (updateBuf s b (fun bf =>
        { bf with lockHeld := false, refcnt := bf.refcnt - 1 })) := by
      refine inv_update_nonkey s b (fun bf =>
        { bf with lockHeld := false, refcnt := bf.refcnt - 1 }) rfl rfl
        (fun hp => Or.inl ?_) h
      have hsub : ((fun (bf : Buf) => { bf with lockHeld := false, refcnt := bf.refcnt - 1 })
          (getBuf s b)).refcnt = (getBuf s b).refcnt - 1 := rfl
      rw [hsub] at hp
      omega
    have hb1 : b < (updateBuf s b (fun bf =>
        { bf with lockHeld := false, refcnt := bf.refcnt - 1 })).bufs.length := by
      rw [updateBuf_length]
      exact hb
    have h2 : CacheInv { updateBuf s b (fun bf =>
        { bf with lockHeld := false, refcnt := bf.refcnt - 1 }) with
        lru := b :: (updateBuf s b (fun bf =>
          { bf with lockHeld := false, refcnt := bf.refcnt - 1 })).lru.erase b } :=
      inv_lru_move _ b hb1 h1
    simp only [brelse, hl, Bool.true_eq_false, if_false]
    split
    · exact h2
    · exact h1

theorem inv_bpin (s : BCache) (b : Nat) (hp : 0 < (getBuf s b).refcnt) (h : CacheInv s) :
    CacheInv (bpin s b).1 :=
  inv_update_nonkey s b (fun bf => { bf with refcnt := bf.refcnt + 1 })
    rfl rfl (fun _ => Or.inl hp) h

theorem inv_bunpin (s : BCache) (b : Nat) (h : CacheInv s) : CacheInv (bunpin s b).1 := by
  by_cases hr : (getBuf s b).refcnt = 0
  · have hs : (bunpin s b).1 = s := by simp [bunpin, hr]
    rw [hs]
    exact h
  · have hs : (bunpin s b).1 = updateBuf s b (fun bf =>
        { bf with refcnt := bf.refcnt - 1 }) := by simp [bunpin, hr]
    rw [hs]
    exact inv_update_nonkey s b _ rfl rfl
      (fun _ => Or.inl (Nat.pos_of_ne_zero hr)) h

theorem inv_applyOp (disk : Nat → Nat → Nat) (s : BCache) (op : Op)
    (hok : okOp s op) (h : CacheInv s) : CacheInv (applyOp disk s op) := by
  cases op with
  | get d bn => exact inv_bget s d bn h
  | read d bn => exact inv_bread s d bn disk h
  | rel b => exact inv_brelse s b h
  | pin b => exact inv_bpin s b hok h
  | unpin b => exact inv_bunpin s b h

theorem inv_reachOk (n : Nat) (disk : Nat → Nat → Nat) (s : BCache)
    (h : ReachOk n disk s) : CacheInv s := by
  induction h with
  | init => exact inv_binit n
  | step s0 op h0 hok ih => exact inv_applyOp disk s0 op hok ih

/-- C3 (counterexample): the claim quantifies over all sequences of
`binit`/`bget`/`bread`/`brelse`/`bpin`/`bunpin` calls; the sequence
`binit; bpin(buf 0); bpin(buf 1)` on a 2-buffer pool is such a sequence and
reaches a state with two distinct buffers both holding key (0,0) with
`ref_count > 0`, because `bpin` increments the reference count of any buffer
unconditionally and all buffers share the zero-initialized key after
`binit`. -/
theorem claim_C3_counterexample : Reach 2 dzero sBad ∧ ¬ AtMostOneLive sBad :=
  ⟨Reach.step _ _ (Reach.step _ _ Reach.init), by decide⟩

/-- C3 (amended): in every state reachable by a sequence of
`binit`/`bget`/`bread`/`brelse`/`bpin`/`bunpin` operations in which `bpin`
is only invoked on a buffer that currently has `ref_count > 0` (a held
buffer, which is the only use the kernel makes of `bpin`), at most one buffer
of the pool holds a given (device, block_number) pair with `ref_count > 0`. -/
theorem claim_C3 (n : Nat) (disk : Nat → Nat → Nat) (s : BCache)
    (h : ReachOk n disk s) : AtMostOneLive s := by
  have hinv := inv_reachOk n disk s h
  intro i hi j hj hcon
  obtain ⟨hij, hpi, hpj, hd, hb⟩ := hcon
  have h1 := hinv.liveMapped i hi hpi
  have h2 := hinv.liveMapped j hj hpj
  rw [hd, hb] at h1
  rw [h1] at h2
  injection h2 with hji
  exact hij hji

theorem claim_C3_witness : AtMostOneLive (applyOp dzero (binit 2) (Op.get 1 5)) :=
  claim_C3 2 dzero _ (ReachOk.step _ _ ReachOk.init trivial)

/-- C7: `bread` performs the device read exactly when the buffer returned by
`bget` has `valid = false` (the returned flag records the read), and the
returned buffer is valid afterwards; after a `brelse` of that buffer, a
second `bread` of the same key performs no device transfer. -/
theorem claim_C7 (s s1 : BCache) (d bn b : Nat) (disk : Nat → Nat → Nat)
    (hb : b < s1.bufs.length)
    (hg : bget s d bn = (s1, Outcome.ok b)) :
    (bread s d bn disk).2 = Outcome.ok (b, !(getBuf s1 b).valid)
    ∧ (getBuf (bread s d bn disk).1 b).valid = true
    ∧ ((brelse (bread s d bn disk).1 b).2 = Outcome.ok ()
        → (bread (brelse (bread s d bn disk).1 b).1 d bn disk).2 = Outcome.ok (b, false)) := by
  obtain ⟨hio, hrmap, hrlen, hrvalid, hrlock⟩ := bread_of_bget_ok s s1 d bn b disk hb hg
  refine ⟨hio, hrvalid, ?_⟩
  intro hrel
  have hlr : (getBuf (bread s d bn disk).1 b).lockHeld = true := by
    cases hcase : (getBuf (bread s d bn disk).1 b).lockHeld with
    | true => rfl
    | false =>
      have hp : (brelse (bread s d bn disk).1 b).2 = Outcome.panic "brelse" := by
        simp [brelse, hcase]
      rw [hp] at hrel
      simp at hrel
  have hbr : b < (bread s d bn disk).1.bufs.length := by
    rw [hrlen]
    exact hb
  obtain ⟨hsmap, hslen, hsbuf⟩ := brelse_facts (bread s d bn disk).1 b hlr hbr
  have hm2 : hashmap_get (brelse (bread s d bn disk).1 b).1.cacheMap d bn = some b := by
    rw [hsmap, hrmap]
    exact bget_ok_map s s1 d bn b hg
  have hb2 : b < (brelse (bread s d bn disk).1 b).1.bufs.length := by
    rw [hslen]
    exact hbr
  have hl2 : (getBuf (brelse (bread s d bn disk).1 b).1 b).lockHeld = false := by
    rw [hsbuf]
  have hv2 : (getBuf (brelse (bread s d bn disk).1 b).1 b).valid = true := by
    rw [hsbuf]
    exact hrvalid
  obtain ⟨hok2, hlen2, hval2⟩ :=
    bget_hit_facts (brelse (bread s d bn disk).1 b).1 d bn b hm2 hb2 hl2
  have hg2 : bget (brelse (bread s d bn disk).1 b).1 d bn
      = ((bget (brelse (bread s d bn disk).1 b).1 d bn).1, Outcome.ok b) := by
    rw [← hok2]
  have hbb2 : b < (bget (brelse (bread s d bn disk).1 b).1 d bn).1.bufs.length := by
    rw [hlen2]
    exact hb2
  obtain ⟨hio2, _, _, _, _⟩ := bread_of_bget_ok (brelse (bread s d bn disk).1 b).1
    (bget (brelse (bread s d bn disk).1 b).1 d bn).1 d bn b disk hbb2 hg2
  rw [hval2, hv2] at hio2
  simpa using hio2

theorem claim_C7_witness :
    1 < (bget sC5 9 8).1.bufs.length
    ∧ bget sC5 9 8 = ((bget sC5 9 8).1, Outcome.ok 1)
    ∧ ((bread sC5 9 8 dzero).2 = Outcome.ok (1, !(getBuf (bget sC5 9 8).1 1).valid)
       ∧ (getBuf (bread sC5 9 8 dzero).1 1).valid = true
       ∧ ((brelse (bread sC5 9 8 dzero).1 1).2 = Outcome.ok ()
           → (bread (brelse (bread sC5 9 8 dzero).1 1).1 9 8 dzero).2 = Outcome.ok (1, false))) :=
  ⟨by decide, by decide, claim_C7 sC5 (bget sC5 9 8).1 9 8 1 dzero (by decide) (by decide)⟩
